import Mathlib

/-!
Verification of the portfolio ledger of a paper-trading stock application.

The ledger owns portfolio state (cash balance, holdings, transaction history)
and exposes two mutating operations, buy and sell, plus a recommendation cache
with a fallback read path.  The definitions below are a shallow embedding of
the REST controller (backend/src/controllers/portfolioController.js,
recommendationController.js) and the GraphQL resolvers
(backend/src/graphql/resolvers.js):

* Currency and share quantities are stored in DECIMAL columns and manipulated
  as exact numbers; they are modelled as rationals.
* The holdings table is modelled as a list of rows; SQL
  UPDATE/DELETE ... WHERE portfolio_id = _ AND ticker = _ act on every
  matching row, so the embedding updates/removes every matching list entry
  (the UNIQUE(portfolio_id, ticker) constraint makes at most one row match).
* A SQL transaction that rolls back on failure is modelled by the operation
  returning an error and the caller keeping the previous state.
* JavaScript's ticker.toUpperCase() is modelled as a character-wise uppercase
  map over the string.
-/

namespace StockPortfolio

/-- Side of a trade, mirroring the transaction_type column, 'buy' or 'sell'. -/
inductive Side where
  | buy
  | sell
deriving DecidableEq, Repr

/-- One row of the holdings table: ticker, quantity (DECIMAL, fractional
shares allowed), avg_buy_price, and the nullable current_price. -/
structure Holding where
  ticker : String
  quantity : ℚ
  avgBuyPrice : ℚ
  currentPrice : Option ℚ
deriving DecidableEq, Repr

/-- One row of the transactions table (immutable audit record). -/
structure Transaction where
  ticker : String
  side : Side
  quantity : ℚ
  pricePerShare : ℚ
  totalAmount : ℚ
deriving DecidableEq, Repr

/-- One user's portfolio: cash_balance plus its holdings and transactions. -/
structure Portfolio where
  cashBalance : ℚ
  holdings : List Holding
  transactions : List Transaction
deriving DecidableEq, Repr

/-- Business-rule failures of the trade endpoints, mirroring the error
responses of the controllers.  insufficientShares carries the held quantity,
as in the message "Insufficient shares. You hold X.". -/
inductive TradeError where
  | validationError
  | insufficientFunds
  | noSuchHolding
  | insufficientShares (held : ℚ)
deriving DecidableEq, Repr

/-- Model of JavaScript's String.prototype.toUpperCase for ASCII tickers:
uppercase every character. -/
def toUpperCase (s : String) : String := ⟨s.data.map Char.toUpper⟩

/-- SELECT * FROM holdings WHERE ticker = tkr (first matching row, if any). -/
def findHolding : List Holding → String → Option Holding
  | [], _ => none
  | h :: t, tkr => if h.ticker == tkr then some h else findHolding t tkr

/-- UPDATE holdings SET ... WHERE ticker = tkr: apply f to every matching row. -/
def updateHolding (f : Holding → Holding) : List Holding → String → List Holding
  | [], _ => []
  | h :: t, tkr => (if h.ticker == tkr then f h else h) :: updateHolding f t tkr

/-- DELETE FROM holdings WHERE ticker = tkr: drop every matching row. -/
def removeHolding : List Holding → String → List Holding
  | [], _ => []
  | h :: t, tkr =>
    if h.ticker == tkr then removeHolding t tkr else h :: removeHolding t tkr

/-- Holdings-table effect of a buy: if a row for the ticker exists, recompute
the average buy price, add the bought quantity and set current_price to the
execution price; otherwise insert a fresh row. -/
def buyHoldings (hs : List Holding) (tkr : String) (quantity pricePerShare : ℚ) :
    List Holding :=
  match findHolding hs tkr with
  | some existing =>
    let newAvgPrice :=
      (existing.quantity * existing.avgBuyPrice + quantity * pricePerShare) /
        (existing.quantity + quantity)
    updateHolding
      (fun h =>
        { h with
          quantity := h.quantity + quantity
          avgBuyPrice := newAvgPrice
          currentPrice := some pricePerShare })
      hs tkr
  | none => hs ++ [⟨tkr, quantity, pricePerShare, some pricePerShare⟩]

/-- Core of buyStock (shared by the REST controller and the GraphQL resolver):
normalise the ticker, compute totalCost, reject on insufficient cash with the
whole transaction rolled back, otherwise deduct cash, upsert the holding and
append a buy transaction. -/
def buyCore (p : Portfolio) (ticker : String) (quantity pricePerShare : ℚ) :
    Except TradeError Portfolio :=
  let tkr := toUpperCase ticker
  let totalCost := quantity * pricePerShare
  if p.cashBalance < totalCost then
    .error .insufficientFunds
  else
    .ok
      { cashBalance := p.cashBalance - totalCost
        holdings := buyHoldings p.holdings tkr quantity pricePerShare
        transactions :=
          p.transactions ++ [⟨tkr, .buy, quantity, pricePerShare, totalCost⟩] }

/-- Holdings-table effect of a sell from the row holding: delete the row when
nothing remains, otherwise set the remaining quantity and current_price. -/
def sellHoldings (hs : List Holding) (tkr : String) (holding : Holding)
    (quantity pricePerShare : ℚ) : List Holding :=
  let remainingQty := holding.quantity - quantity
  if remainingQty ≤ 0 then
    removeHolding hs tkr
  else
    updateHolding
      (fun h => { h with quantity := remainingQty, currentPrice := some pricePerShare })
      hs tkr

/-- Core of sellStock (shared by the REST controller and the GraphQL
resolver): normalise the ticker, fail when no holding exists or too few shares
are held (rolling back), otherwise add the proceeds to cash, shrink or delete
the holding and append a sell transaction. -/
def sellCore (p : Portfolio) (ticker : String) (quantity pricePerShare : ℚ) :
    Except TradeError Portfolio :=
  let tkr := toUpperCase ticker
  let totalProceeds := quantity * pricePerShare
  match findHolding p.holdings tkr with
  | none => .error .noSuchHolding
  | some holding =>
    if holding.quantity < quantity then
      .error (.insufficientShares holding.quantity)
    else
      .ok
        { cashBalance := p.cashBalance + totalProceeds
          holdings := sellHoldings p.holdings tkr holding quantity pricePerShare
          transactions :=
            p.transactions ++ [⟨tkr, .sell, quantity, pricePerShare, totalProceeds⟩] }

/-- REST-controller wrapper of buyStock: the body check
"if (!ticker || !quantity || !pricePerShare) return 400" rejects a missing
field and the JavaScript-falsy values, the empty ticker and zero amounts,
before the transaction is opened; everything else reaches the core. -/
def restBuy (p : Portfolio) (ticker : Option String) (quantity pricePerShare : Option ℚ) :
    Except TradeError Portfolio :=
  match ticker, quantity, pricePerShare with
  | some t, some q, some pr =>
    if t == "" || q == 0 || pr == 0 then .error .validationError
    else buyCore p t q pr
  | _, _, _ => .error .validationError

/-- REST-controller wrapper of sellStock, with the same falsy-field check. -/
def restSell (p : Portfolio) (ticker : Option String) (quantity pricePerShare : Option ℚ) :
    Except TradeError Portfolio :=
  match ticker, quantity, pricePerShare with
  | some t, some q, some pr =>
    if t == "" || q == 0 || pr == 0 then .error .validationError
    else sellCore p t q pr
  | _, _, _ => .error .validationError

/-- COMMIT on success, ROLLBACK (keep the previous state) on failure. -/
def commit (p : Portfolio) : Except TradeError Portfolio → Portfolio
  | .ok p' => p'
  | .error _ => p

/-- A trade request against the ledger. -/
inductive TradeOp where
  | buy (ticker : String) (quantity pricePerShare : ℚ)
  | sell (ticker : String) (quantity pricePerShare : ℚ)
deriving DecidableEq, Repr

/-- Run one trade request: the state after COMMIT or ROLLBACK. -/
def applyOp (p : Portfolio) : TradeOp → Portfolio
  | .buy t q pr => commit p (buyCore p t q pr)
  | .sell t q pr => commit p (sellCore p t q pr)

/-- Run a sequence of trade requests in order. -/
def runOps (p : Portfolio) (ops : List TradeOp) : Portfolio :=
  ops.foldl applyOp p

/-- A fresh portfolio: the starting cash balance, no holdings, no history. -/
def initialPortfolio (cash : ℚ) : Portfolio :=
  { cashBalance := cash, holdings := [], transactions := [] }

/-- Sum of total_amount over the buy transactions of a history. -/
def sumBuys (txs : List Transaction) : ℚ :=
  ((txs.filter fun tx => tx.side == Side.buy).map Transaction.totalAmount).sum

/-- Sum of total_amount over the sell transactions of a history. -/
def sumSells (txs : List Transaction) : ℚ :=
  ((txs.filter fun tx => tx.side == Side.sell).map Transaction.totalAmount).sum

/-- Conservation relation: buys plus final cash minus sells equals the
starting cash. -/
def conserves (initialCash : ℚ) (p : Portfolio) : Prop :=
  sumBuys p.transactions + p.cashBalance - sumSells p.transactions = initialCash

/-- Portfolio-state invariant: cash is never negative and every persisted
holding has positive quantity. -/
def Inv (p : Portfolio) : Prop :=
  0 ≤ p.cashBalance ∧ ∀ h ∈ p.holdings, 0 < h.quantity

instance (p : Portfolio) : Decidable (Inv p) := by
  unfold Inv; infer_instance

/-- The spec's preconditions on a trade request: positive quantity and price. -/
def TradeOp.valid : TradeOp → Prop
  | .buy _ q pr => 0 < q ∧ 0 < pr
  | .sell _ q pr => 0 < q ∧ 0 < pr

instance (op : TradeOp) : Decidable op.valid := by
  cases op <;> (unfold TradeOp.valid; infer_instance)

/-- One row of the watchlist table for a fixed user: ticker and added_at. -/
structure WatchlistEntry where
  ticker : String
  addedAt : ℕ
deriving DecidableEq, Repr

/-- Mutation addToWatchlist: INSERT ... ON CONFLICT (user_id, ticker) DO
UPDATE SET added_at = NOW(), with the ticker upper-cased first. -/
def addToWatchlist (wl : List WatchlistEntry) (ticker : String) (now : ℕ) :
    List WatchlistEntry :=
  let tkr := toUpperCase ticker
  if wl.any fun e => e.ticker == tkr then
    wl.map fun e => if e.ticker == tkr then { e with addedAt := now } else e
  else
    wl ++ [⟨tkr, now⟩]

/-- Mutation removeFromWatchlist: DELETE ... WHERE ticker = upper-cased input. -/
def removeFromWatchlist (wl : List WatchlistEntry) (ticker : String) :
    List WatchlistEntry :=
  let tkr := toUpperCase ticker
  wl.filter fun e => !(e.ticker == tkr)

/-- One row of the ai_recommendations table for a fixed user. -/
structure RecRecord where
  ticker : String
  recommendation : String
  confidenceScore : ℚ
  createdAt : ℕ
deriving DecidableEq, Repr

/-- Outcome of the call to the external prediction service: a result list, or
a failure with the error code the controller branches on. -/
inductive MlOutcome where
  | ok (recs : List RecRecord)
  | connRefused
  | timedOut
  | otherError
deriving DecidableEq, Repr

/-- Response body of the recommendations endpoint. -/
structure RecResponse where
  recommendations : List RecRecord
  cached : Bool
  message : Option String
deriving DecidableEq, Repr

/-- Fallback message of the REST controller. -/
def fallbackMessage : String :=
  "AI service temporarily unavailable. Showing latest cached recommendations."

/-- Semantics of the fallback query
SELECT DISTINCT ON (ticker) ... WHERE user_id = _
ORDER BY ticker, created_at DESC LIMIT 10:
for each distinct ticker in ascending order, the row with the greatest
created_at, truncated to ten rows. -/
def cachedQuery (stored : List RecRecord) : List RecRecord :=
  (((stored.map RecRecord.ticker).dedup.insertionSort (· ≤ ·)).filterMap
    (fun t => (stored.filter fun r => r.ticker == t).argmax RecRecord.createdAt)).take 10

/-- GET /api/recommendations (and the GraphQL recommendations query): on a
successful prediction call return the fresh list; when the call fails with
ECONNREFUSED or ETIMEDOUT and the cache is non-empty, return the cached rows
with the cached flag and the explanatory message; any other failure, or an
empty cache, is the hard 503 error.  (The success path also appends the fresh
rows to the ai_recommendations table; the stored list here is the table as
read at fallback time.) -/
def getRecommendations (ml : MlOutcome) (stored : List RecRecord) :
    Except String RecResponse :=
  match ml with
  | .ok recs => .ok ⟨recs, false, none⟩
  | .connRefused | .timedOut =>
    let cached := cachedQuery stored
    if cached.isEmpty then
      .error "AI recommendation service temporarily unavailable."
    else
      .ok ⟨cached, true, some fallbackMessage⟩
  | .otherError => .error "AI recommendation service temporarily unavailable."

/-! Helper lemmas about the ledger operations. -/

theorem buyCore_insufficient (p : Portfolio) (t : String) (q pr : ℚ)
    (h : p.cashBalance < q * pr) :
    buyCore p t q pr = .error .insufficientFunds := by
  simp [buyCore, h]

theorem buyCore_ok (p : Portfolio) (t : String) (q pr : ℚ)
    (h : ¬ p.cashBalance < q * pr) :
    buyCore p t q pr = .ok
      { cashBalance := p.cashBalance - q * pr
        holdings := buyHoldings p.holdings (toUpperCase t) q pr
        transactions :=
          p.transactions ++ [⟨toUpperCase t, .buy, q, pr, q * pr⟩] } := by
  simp [buyCore, h]

theorem buyCore_ok_cash {p p' : Portfolio} {t : String} {q pr : ℚ}
    (h : buyCore p t q pr = .ok p') :
    ¬ p.cashBalance < q * pr ∧ p'.cashBalance = p.cashBalance - q * pr := by
  by_cases hc : p.cashBalance < q * pr
  · rw [buyCore_insufficient p t q pr hc] at h
    exact absurd h (by simp)
  · rw [buyCore_ok p t q pr hc] at h
    simp only [Except.ok.injEq] at h
    subst h
    exact ⟨hc, rfl⟩

theorem sellCore_noHolding (p : Portfolio) (t : String) (q pr : ℚ)
    (hf : findHolding p.holdings (toUpperCase t) = none) :
    sellCore p t q pr = .error .noSuchHolding := by
  simp [sellCore, hf]

theorem sellCore_insufficient (p : Portfolio) (t : String) (q pr : ℚ)
    (holding : Holding)
    (hf : findHolding p.holdings (toUpperCase t) = some holding)
    (h : holding.quantity < q) :
    sellCore p t q pr = .error (.insufficientShares holding.quantity) := by
  simp [sellCore, hf, h]

theorem sellCore_ok (p : Portfolio) (t : String) (q pr : ℚ) (holding : Holding)
    (hf : findHolding p.holdings (toUpperCase t) = some holding)
    (h : ¬ holding.quantity < q) :
    sellCore p t q pr = .ok
      { cashBalance := p.cashBalance + q * pr
        holdings := sellHoldings p.holdings (toUpperCase t) holding q pr
        transactions :=
          p.transactions ++ [⟨toUpperCase t, .sell, q, pr, q * pr⟩] } := by
  simp [sellCore, hf, h]

theorem findHolding_updateHolding (f : Holding → Holding)
    (hs : List Holding) (tkr : String) (hf : ∀ h, (f h).ticker = h.ticker) :
    findHolding (updateHolding f hs tkr) tkr = (findHolding hs tkr).map f := by
  induction hs with
  | nil => rfl
  | cons h t ih =>
    by_cases hc : h.ticker = tkr
    · simp [updateHolding, findHolding, hc, hf]
    · simp [updateHolding, findHolding, hc, ih]

theorem findHolding_removeHolding (hs : List Holding) (tkr : String) :
    findHolding (removeHolding hs tkr) tkr = none := by
  induction hs with
  | nil => rfl
  | cons h t ih =>
    by_cases hc : h.ticker = tkr
    · simp [removeHolding, hc, ih]
    · simp [removeHolding, findHolding, hc, ih]

theorem findHolding_append_none {hs : List Holding} {tkr : String}
    (h : findHolding hs tkr = none) (x : Holding) :
    findHolding (hs ++ [x]) tkr = if x.ticker == tkr then some x else none := by
  induction hs with
  | nil => rfl
  | cons hh t ih =>
    by_cases hc : hh.ticker = tkr
    · simp [findHolding, hc] at h
    · simp only [findHolding, beq_iff_eq, hc] at h
      simp only [List.cons_append, findHolding, beq_iff_eq, hc, if_false]
      simpa using ih h

theorem updateHolding_forall {P : Holding → Prop} {f : Holding → Holding}
    {hs : List Holding} {tkr : String}
    (hall : ∀ h ∈ hs, P h) (hfp : ∀ h ∈ hs, P (f h)) :
    ∀ x ∈ updateHolding f hs tkr, P x := by
  induction hs with
  | nil => intro x hx; simp [updateHolding] at hx
  | cons h t ih =>
    intro x hx
    simp only [updateHolding, List.mem_cons] at hx
    rcases hx with rfl | hx
    · split
      · exact hfp h (by simp)
      · exact hall h (by simp)
    · exact ih (fun y hy => hall y (by simp [hy])) (fun y hy => hfp y (by simp [hy])) x hx

theorem mem_removeHolding {hs : List Holding} {tkr : String} {x : Holding}
    (hx : x ∈ removeHolding hs tkr) : x ∈ hs := by
  induction hs with
  | nil => simp [removeHolding] at hx
  | cons h t ih =>
    by_cases hc : h.ticker = tkr
    · simp only [removeHolding, beq_iff_eq, hc, if_true] at hx
      exact List.mem_cons_of_mem _ (ih hx)
    · simp only [removeHolding, beq_iff_eq, hc, if_false, List.mem_cons] at hx
      rcases hx with rfl | hx
      · exact List.mem_cons_self _ _
      · exact List.mem_cons_of_mem _ (ih hx)

theorem sumBuys_append (a b : List Transaction) :
    sumBuys (a ++ b) = sumBuys a + sumBuys b := by
  simp [sumBuys, List.filter_append]

theorem sumSells_append (a b : List Transaction) :
    sumSells (a ++ b) = sumSells a + sumSells b := by
  simp [sumSells, List.filter_append]

theorem conserves_applyOp (c : ℚ) (p : Portfolio) (op : TradeOp)
    (h : conserves c p) : conserves c (applyOp p op) := by
  cases op with
  | buy t q pr =>
    by_cases hc : p.cashBalance < q * pr
    · simpa [applyOp, buyCore_insufficient p t q pr hc, commit] using h
    · simp only [applyOp, buyCore_ok p t q pr hc, commit]
      unfold conserves at h ⊢
      simp only [sumBuys_append, sumSells_append]
      have hb : sumBuys [⟨toUpperCase t, .buy, q, pr, q * pr⟩] = q * pr := by
        simp [sumBuys]
      have hs : sumSells [⟨toUpperCase t, .buy, q, pr, q * pr⟩] = 0 := by
        simp [sumSells]
      rw [hb, hs]
      linarith
  | sell t q pr =>
    rcases hfind : findHolding p.holdings (toUpperCase t) with _ | holding
    · simpa [applyOp, sellCore_noHolding p t q pr hfind, commit] using h
    · by_cases hlt : holding.quantity < q
      · simpa [applyOp, sellCore_insufficient p t q pr holding hfind hlt, commit] using h
      · simp only [applyOp, sellCore_ok p t q pr holding hfind hlt, commit]
        unfold conserves at h ⊢
        simp only [sumBuys_append, sumSells_append]
        have hb : sumBuys [⟨toUpperCase t, .sell, q, pr, q * pr⟩] = 0 := by
          simp [sumBuys]
        have hs : sumSells [⟨toUpperCase t, .sell, q, pr, q * pr⟩] = q * pr := by
          simp [sumSells]
        rw [hb, hs]
        linarith

/-- Claim C1: for every sequence of buy and sell requests against a fresh
portfolio (failed requests roll back and commit nothing), the sum of the
totalAmount of the committed buy transactions plus the final cash balance
minus the sum of the totalAmount of the committed sell transactions equals
the initial cash balance. -/
theorem conservation_law (initialCash : ℚ) (ops : List TradeOp) :
    sumBuys (runOps (initialPortfolio initialCash) ops).transactions
      + (runOps (initialPortfolio initialCash) ops).cashBalance
      - sumSells (runOps (initialPortfolio initialCash) ops).transactions
      = initialCash := by
  have key : ∀ p, conserves initialCash p → conserves initialCash (runOps p ops) := by
    induction ops with
    | nil => exact fun p hp => hp
    | cons op rest ih => exact fun p hp => ih (applyOp p op) (conserves_applyOp _ _ _ hp)
  exact key (initialPortfolio initialCash)
    (by simp [conserves, initialPortfolio, sumBuys, sumSells])

theorem Inv_applyOp (p : Portfolio) (op : TradeOp) (hv : op.valid) (h : Inv p) :
    Inv (applyOp p op) := by
  cases op with
  | buy t q pr =>
    obtain ⟨hq, hpr⟩ := hv
    by_cases hc : p.cashBalance < q * pr
    · simpa [applyOp, buyCore_insufficient p t q pr hc, commit] using h
    · simp only [applyOp, buyCore_ok p t q pr hc, commit]
      refine ⟨by simpa using sub_nonneg.mpr (not_lt.mp hc), ?_⟩
      intro x hx
      simp only at hx
      unfold buyHoldings at hx
      rcases hfind : findHolding p.holdings (toUpperCase t) with _ | existing
      · rw [hfind] at hx
        rcases List.mem_append.mp hx with hmem | hmem
        · exact h.2 x hmem
        · simp only [List.mem_singleton] at hmem
          subst hmem
          exact hq
      · rw [hfind] at hx
        refine updateHolding_forall (P := fun y => 0 < y.quantity) h.2 ?_ x hx
        intro y hy
        have := h.2 y hy
        simp only
        linarith
  | sell t q pr =>
    obtain ⟨hq, hpr⟩ := hv
    rcases hfind : findHolding p.holdings (toUpperCase t) with _ | holding
    · simpa [applyOp, sellCore_noHolding p t q pr hfind, commit] using h
    · by_cases hlt : holding.quantity < q
      · simpa [applyOp, sellCore_insufficient p t q pr holding hfind hlt, commit] using h
      · simp only [applyOp, sellCore_ok p t q pr holding hfind hlt, commit]
        constructor
        · have := h.1
          have hqp : 0 < q * pr := mul_pos hq hpr
          simp only
          linarith
        · intro x hx
          simp only at hx
          unfold sellHoldings at hx
          by_cases hrem : holding.quantity - q ≤ 0
          · rw [if_pos hrem] at hx
            exact h.2 x (mem_removeHolding hx)
          · rw [if_neg hrem] at hx
            refine updateHolding_forall (P := fun y => 0 < y.quantity) h.2 ?_ x hx
            intro y hy
            simp only
            linarith

/-- Claim C6: every committed buy or sell request that meets the spec's
preconditions (positive quantity and price) preserves the invariant that the
cash balance is nonnegative and every persisted holding has positive
quantity; a holding whose quantity would reach zero is deleted, never stored
at zero, which the invariant reflects. -/
theorem invariant_preserved (p : Portfolio) (ops : List TradeOp)
    (hv : ∀ op ∈ ops, op.valid) (h : Inv p) : Inv (runOps p ops) := by
  induction ops generalizing p with
  | nil => exact h
  | cons op rest ih =>
    exact ih (applyOp p op) (fun o ho => hv o (List.mem_cons_of_mem _ ho))
      (Inv_applyOp p op (hv op (List.mem_cons_self _ _)) h)

/-- Witness for claim C6 at a concrete run: buy 2 shares at 10, then sell one
at 12, starting from 100 in cash. -/
theorem invariant_preserved_witness :
    Inv (runOps (initialPortfolio 100)
      [.buy "aapl" 2 10, .sell "AAPL" 1 12]) :=
  invariant_preserved (initialPortfolio 100)
    [.buy "aapl" 2 10, .sell "AAPL" 1 12]
    (by decide) (by decide)

/-- Claim C2: a buy request with positive quantity and price whose total cost
exceeds the current cash balance fails with InsufficientFunds on both the
shared core and the REST wrapper, and the committed state is unchanged (cash,
holdings and transaction history): no partial fill. -/
theorem buy_insufficient_funds (p : Portfolio) (t : String) (q pr : ℚ)
    (hq : 0 < q) (hpr : 0 < pr) (ht : t ≠ "")
    (hc : p.cashBalance < q * pr) :
    buyCore p t q pr = .error .insufficientFunds ∧
    restBuy p (some t) (some q) (some pr) = .error .insufficientFunds ∧
    applyOp p (.buy t q pr) = p := by
  refine ⟨buyCore_insufficient p t q pr hc, ?_, ?_⟩
  · simp [restBuy, ht, hq.ne', hpr.ne', buyCore_insufficient p t q pr hc]
  · simp [applyOp, buyCore_insufficient p t q pr hc, commit]

/-- Witness for claim C2: buying 1 share at 10 with only 5 in cash. -/
theorem buy_insufficient_funds_witness :
    buyCore (initialPortfolio 5) "AAPL" 1 10 = .error .insufficientFunds ∧
    restBuy (initialPortfolio 5) (some "AAPL") (some 1) (some 10)
      = .error .insufficientFunds ∧
    applyOp (initialPortfolio 5) (.buy "AAPL" 1 10) = initialPortfolio 5 :=
  buy_insufficient_funds (initialPortfolio 5) "AAPL" 1 10
    (by norm_num) (by norm_num) (by decide) (by norm_num [initialPortfolio])

/-- Claim C3: a successful buy of q at price pr decreases cash by q times pr;
an existing holding for the (upper-cased) ticker gets the recomputed average
price, quantity grown by q and current price pr, while a missing holding is
created with quantity q, average price pr and current price pr; and a buy
transaction with totalAmount q times pr is appended. -/
theorem buy_effect (p : Portfolio) (t : String) (q pr : ℚ)
    (hc : ¬ p.cashBalance < q * pr) :
    ∃ p', buyCore p t q pr = .ok p' ∧
      p'.cashBalance = p.cashBalance - q * pr ∧
      p'.transactions = p.transactions ++ [⟨toUpperCase t, .buy, q, pr, q * pr⟩] ∧
      (∀ h0, findHolding p.holdings (toUpperCase t) = some h0 →
        findHolding p'.holdings (toUpperCase t) = some
          { h0 with
            quantity := h0.quantity + q
            avgBuyPrice := (h0.quantity * h0.avgBuyPrice + q * pr) / (h0.quantity + q)
            currentPrice := some pr }) ∧
      (findHolding p.holdings (toUpperCase t) = none →
        findHolding p'.holdings (toUpperCase t) = some ⟨toUpperCase t, q, pr, some pr⟩) := by
  refine ⟨_, buyCore_ok p t q pr hc, rfl, rfl, ?_, ?_⟩
  · intro h0 hf
    simp only [buyHoldings, hf]
    rw [findHolding_updateHolding, hf]
    · rfl
    · exact fun _ => rfl
  · intro hf
    simp only [buyHoldings, hf]
    rw [findHolding_append_none hf]
    simp

/-- Witness for claim C3: buying 2 shares at 10 with 100 in cash. -/
theorem buy_effect_witness :
    ∃ p', buyCore (initialPortfolio 100) "aapl" 2 10 = .ok p' ∧
      p'.cashBalance = (initialPortfolio 100).cashBalance - 2 * 10 ∧
      p'.transactions = (initialPortfolio 100).transactions
        ++ [⟨toUpperCase "aapl", .buy, 2, 10, 2 * 10⟩] ∧
      (∀ h0, findHolding (initialPortfolio 100).holdings (toUpperCase "aapl") = some h0 →
        findHolding p'.holdings (toUpperCase "aapl") = some
          { h0 with
            quantity := h0.quantity + 2
            avgBuyPrice := (h0.quantity * h0.avgBuyPrice + 2 * 10) / (h0.quantity + 2)
            currentPrice := some 10 }) ∧
      (findHolding (initialPortfolio 100).holdings (toUpperCase "aapl") = none →
        findHolding p'.holdings (toUpperCase "aapl")
          = some ⟨toUpperCase "aapl", 2, 10, some 10⟩) :=
  buy_effect (initialPortfolio 100) "aapl" 2 10 (by norm_num [initialPortfolio])

/-- Claim C4: a successful sell of q at price pr from a holding of quantity
at least q increases cash by q times pr; when nothing remains the holding is
deleted entirely (absent afterwards), otherwise its quantity shrinks to the
remainder, its current price becomes pr and its average buy price is
unchanged; and a sell transaction is appended. -/
theorem sell_effect (p : Portfolio) (t : String) (q pr : ℚ) (h0 : Holding)
    (hf : findHolding p.holdings (toUpperCase t) = some h0)
    (hq : ¬ h0.quantity < q) :
    ∃ p', sellCore p t q pr = .ok p' ∧
      p'.cashBalance = p.cashBalance + q * pr ∧
      p'.transactions = p.transactions ++ [⟨toUpperCase t, .sell, q, pr, q * pr⟩] ∧
      (h0.quantity - q ≤ 0 → findHolding p'.holdings (toUpperCase t) = none) ∧
      (¬ h0.quantity - q ≤ 0 →
        findHolding p'.holdings (toUpperCase t) = some
          { h0 with quantity := h0.quantity - q, currentPrice := some pr }) := by
  refine ⟨_, sellCore_ok p t q pr h0 hf hq, rfl, rfl, ?_, ?_⟩
  · intro hrem
    simp only [sellHoldings, hrem, if_pos]
    exact findHolding_removeHolding _ _
  · intro hrem
    simp only [sellHoldings, if_neg hrem]
    rw [findHolding_updateHolding, hf]
    · rfl
    · exact fun _ => rfl

/-- Witness for claim C4: selling 2 of 5 held shares at 12. -/
theorem sell_effect_witness :
    ∃ p', sellCore ⟨100, [⟨"AAPL", 5, 10, some 10⟩], []⟩ "aapl" 2 12 = .ok p' ∧
      p'.cashBalance = (⟨100, [⟨"AAPL", 5, 10, some 10⟩], []⟩ : Portfolio).cashBalance
        + 2 * 12 ∧
      p'.transactions = (⟨100, [⟨"AAPL", 5, 10, some 10⟩], []⟩ : Portfolio).transactions
        ++ [⟨toUpperCase "aapl", .sell, 2, 12, 2 * 12⟩] ∧
      ((5 : ℚ) - 2 ≤ 0 → findHolding p'.holdings (toUpperCase "aapl") = none) ∧
      (¬ (5 : ℚ) - 2 ≤ 0 →
        findHolding p'.holdings (toUpperCase "aapl") = some
          ⟨"AAPL", 5 - 2, 10, some 12⟩) :=
  sell_effect ⟨100, [⟨"AAPL", 5, 10, some 10⟩], []⟩ "aapl" 2 12
    ⟨"AAPL", 5, 10, some 10⟩ (by decide) (by norm_num)

/-- Claim C5: a sell request fails with NoSuchHolding when no holding for the
(upper-cased) ticker exists, and with InsufficientShares carrying the held
quantity when fewer shares are held than requested; in both cases the
committed state, cash, holdings and history, is unchanged. -/
theorem sell_failures (p : Portfolio) (t : String) (q pr : ℚ) :
    (findHolding p.holdings (toUpperCase t) = none →
      sellCore p t q pr = .error .noSuchHolding ∧
      applyOp p (.sell t q pr) = p) ∧
    (∀ h0, findHolding p.holdings (toUpperCase t) = some h0 → h0.quantity < q →
      sellCore p t q pr = .error (.insufficientShares h0.quantity) ∧
      applyOp p (.sell t q pr) = p) := by
  constructor
  · intro hf
    have he := sellCore_noHolding p t q pr hf
    exact ⟨he, by simp [applyOp, he, commit]⟩
  · intro h0 hf hlt
    have he := sellCore_insufficient p t q pr h0 hf hlt
    exact ⟨he, by simp [applyOp, he, commit]⟩

/-- Witness for claim C5: selling with no holdings at all, and selling 9
shares while holding 5. -/
theorem sell_failures_witness :
    (sellCore (initialPortfolio 100) "AAPL" 1 10 = .error .noSuchHolding ∧
      applyOp (initialPortfolio 100) (.sell "AAPL" 1 10) = initialPortfolio 100) ∧
    (sellCore ⟨100, [⟨"AAPL", 5, 10, some 10⟩], []⟩ "AAPL" 9 10
        = .error (.insufficientShares 5) ∧
      applyOp (⟨100, [⟨"AAPL", 5, 10, some 10⟩], []⟩ : Portfolio) (.sell "AAPL" 9 10)
        = ⟨100, [⟨"AAPL", 5, 10, some 10⟩], []⟩) :=
  ⟨(sell_failures (initialPortfolio 100) "AAPL" 1 10).1 (by decide),
   (sell_failures ⟨100, [⟨"AAPL", 5, 10, some 10⟩], []⟩ "AAPL" 9 10).2
     ⟨"AAPL", 5, 10, some 10⟩ (by decide) (by norm_num)⟩

theorem buyCore_ne_validation (p : Portfolio) (t : String) (q pr : ℚ) :
    buyCore p t q pr ≠ .error .validationError := by
  by_cases hc : p.cashBalance < q * pr
  · simp [buyCore_insufficient p t q pr hc]
  · simp [buyCore_ok p t q pr hc]

theorem sellCore_ne_validation (p : Portfolio) (t : String) (q pr : ℚ) :
    sellCore p t q pr ≠ .error .validationError := by
  rcases hf : findHolding p.holdings (toUpperCase t) with _ | h0
  · simp [sellCore_noHolding p t q pr hf]
  · by_cases hlt : h0.quantity < q
    · simp [sellCore_insufficient p t q pr h0 hf hlt]
    · simp [sellCore_ok p t q pr h0 hf hlt]

/-- Claim C7 fails on the code: the REST body check only rejects falsy
values, so a buy request with the non-positive quantity -1 is not rejected
with a validation error; it reaches the ledger, passes the funds check
(total cost -10 is below any nonnegative balance) and commits, crediting
cash and storing a negative holding. -/
theorem validation_counterexample :
    restBuy (initialPortfolio 100000) (some "AAPL") (some (-1)) (some 10)
      = Except.ok ⟨100010, [⟨"AAPL", -1, 10, some 10⟩],
          [⟨"AAPL", Side.buy, -1, 10, -10⟩]⟩ := by
  have hup : toUpperCase "AAPL" = "AAPL" := by decide
  have hcond : ("AAPL" == "" || (-1 : ℚ) == 0 || (10 : ℚ) == 0) = false := by decide
  have hlt : ¬ (initialPortfolio 100000).cashBalance < (-1 : ℚ) * 10 := by
    norm_num [initialPortfolio]
  rw [restBuy, hcond, if_neg (by simp), buyCore_ok _ _ _ _ hlt, hup]
  simp only [Except.ok.injEq, initialPortfolio, buyHoldings, findHolding]
  norm_num

/-- Claim C7 amended: the REST wrappers reject with ValidationError exactly
the requests with a missing field, an empty ticker, or a zero quantity or
price (the JavaScript-falsy values), before any portfolio state is touched;
a merely negative quantity or price is not rejected, and every request with
nonzero quantity and price and nonempty ticker is passed unvalidated to the
ledger core (the GraphQL resolvers call the core with no validation at all). -/
theorem validation_amended (p : Portfolio) (t : Option String) (q pr : Option ℚ) :
    (restBuy p t q pr = .error .validationError ↔
      t = none ∨ t = some "" ∨ q = none ∨ q = some 0 ∨ pr = none ∨ pr = some 0) ∧
    (restSell p t q pr = .error .validationError ↔
      t = none ∨ t = some "" ∨ q = none ∨ q = some 0 ∨ pr = none ∨ pr = some 0) ∧
    (∀ s : String, ∀ qv prv : ℚ, s ≠ "" → qv ≠ 0 → prv ≠ 0 →
      restBuy p (some s) (some qv) (some prv) = buyCore p s qv prv ∧
      restSell p (some s) (some qv) (some prv) = sellCore p s qv prv) := by
  refine ⟨?_, ?_, ?_⟩
  · rcases t with _ | s <;> rcases q with _ | qv <;> rcases pr with _ | prv <;>
      try simp [restBuy]
    by_cases hs : s = ""
    · simp [restBuy, hs]
    · by_cases hq : qv = 0
      · simp [restBuy, hq]
      · by_cases hpr : prv = 0
        · simp [restBuy, hpr]
        · simp [restBuy, hs, hq, hpr, buyCore_ne_validation]
  · rcases t with _ | s <;> rcases q with _ | qv <;> rcases pr with _ | prv <;>
      try simp [restSell]
    by_cases hs : s = ""
    · simp [restSell, hs]
    · by_cases hq : qv = 0
      · simp [restSell, hq]
      · by_cases hpr : prv = 0
        · simp [restSell, hpr]
        · simp [restSell, hs, hq, hpr, sellCore_ne_validation]
  · intro s qv prv hs hq hpr
    constructor
    · simp [restBuy, hs, hq, hpr]
    · simp [restSell, hs, hq, hpr]

/-- Claim C9 fails as stated: with 100 in cash and two concurrent buy
requests of 150 each (combined cost 300 exceeds the cash), both requests
fail with InsufficientFunds in either serialization order, so it is not the
case that exactly one succeeds. -/
theorem concurrent_buys_counterexample :
    ((100 : ℚ) < 1 * 150 + 1 * 150) ∧
    buyCore (initialPortfolio 100) "AAPL" 1 150 = .error .insufficientFunds ∧
    buyCore (initialPortfolio 100) "MSFT" 1 150 = .error .insufficientFunds ∧
    buyCore (applyOp (initialPortfolio 100) (.buy "AAPL" 1 150)) "MSFT" 1 150
      = .error .insufficientFunds ∧
    buyCore (applyOp (initialPortfolio 100) (.buy "MSFT" 1 150)) "AAPL" 1 150
      = .error .insufficientFunds ∧
    runOps (initialPortfolio 100) [.buy "AAPL" 1 150, .buy "MSFT" 1 150]
      = initialPortfolio 100 ∧
    runOps (initialPortfolio 100) [.buy "MSFT" 1 150, .buy "AAPL" 1 150]
      = initialPortfolio 100 := by
  have h1 : buyCore (initialPortfolio 100) "AAPL" 1 150 = .error .insufficientFunds :=
    buyCore_insufficient _ _ _ _ (by norm_num [initialPortfolio])
  have h2 : buyCore (initialPortfolio 100) "MSFT" 1 150 = .error .insufficientFunds :=
    buyCore_insufficient _ _ _ _ (by norm_num [initialPortfolio])
  have ha1 : applyOp (initialPortfolio 100) (.buy "AAPL" 1 150) = initialPortfolio 100 := by
    simp [applyOp, h1, commit]
  have ha2 : applyOp (initialPortfolio 100) (.buy "MSFT" 1 150) = initialPortfolio 100 := by
    simp [applyOp, h2, commit]
  refine ⟨by norm_num, h1, h2, ?_, ?_, ?_, ?_⟩
  · rw [ha1]; exact h2
  · rw [ha2]; exact h1
  · simp [runOps, ha1, ha2]
  · simp [runOps, ha1, ha2]

/-- Claim C9 amended: the FOR UPDATE row lock serializes the two trades, so
under either serialization order of two buy requests whose combined cost
exceeds the available cash, they never both succeed: whichever request
commits first leaves too little cash for the other, which fails with
InsufficientFunds; and when a request's own cost fits the initial balance it
does succeed first, giving exactly one success and one InsufficientFunds. -/
theorem concurrent_buys_amended (p : Portfolio) (t1 t2 : String) (q1 r1 q2 r2 : ℚ)
    (hjoint : p.cashBalance < q1 * r1 + q2 * r2) :
    (∀ p', buyCore p t1 q1 r1 = .ok p' →
      buyCore p' t2 q2 r2 = .error .insufficientFunds) ∧
    (∀ p', buyCore p t2 q2 r2 = .ok p' →
      buyCore p' t1 q1 r1 = .error .insufficientFunds) ∧
    (q1 * r1 ≤ p.cashBalance →
      ∃ p', buyCore p t1 q1 r1 = .ok p' ∧
        buyCore p' t2 q2 r2 = .error .insufficientFunds) ∧
    (q2 * r2 ≤ p.cashBalance →
      ∃ p', buyCore p t2 q2 r2 = .ok p' ∧
        buyCore p' t1 q1 r1 = .error .insufficientFunds) := by
  refine ⟨?_, ?_, ?_, ?_⟩
  · intro p' hok
    obtain ⟨-, hcash⟩ := buyCore_ok_cash hok
    exact buyCore_insufficient _ _ _ _ (by rw [hcash]; linarith)
  · intro p' hok
    obtain ⟨-, hcash⟩ := buyCore_ok_cash hok
    exact buyCore_insufficient _ _ _ _ (by rw [hcash]; linarith)
  · intro hle
    refine ⟨_, buyCore_ok p t1 q1 r1 (not_lt.mpr hle), ?_⟩
    exact buyCore_insufficient _ _ _ _ (by simp only; linarith)
  · intro hle
    refine ⟨_, buyCore_ok p t2 q2 r2 (not_lt.mpr hle), ?_⟩
    exact buyCore_insufficient _ _ _ _ (by simp only; linarith)

/-- Witness for the amended claim C9: 100 in cash, two buys of 60 each. -/
theorem concurrent_buys_amended_witness :
    (∀ p', buyCore (initialPortfolio 100) "AAPL" 1 60 = .ok p' →
      buyCore p' "MSFT" 1 60 = .error .insufficientFunds) ∧
    (∀ p', buyCore (initialPortfolio 100) "MSFT" 1 60 = .ok p' →
      buyCore p' "AAPL" 1 60 = .error .insufficientFunds) ∧
    ((1 : ℚ) * 60 ≤ (initialPortfolio 100).cashBalance →
      ∃ p', buyCore (initialPortfolio 100) "AAPL" 1 60 = .ok p' ∧
        buyCore p' "MSFT" 1 60 = .error .insufficientFunds) ∧
    ((1 : ℚ) * 60 ≤ (initialPortfolio 100).cashBalance →
      ∃ p', buyCore (initialPortfolio 100) "MSFT" 1 60 = .ok p' ∧
        buyCore p' "AAPL" 1 60 = .error .insufficientFunds) :=
  concurrent_buys_amended (initialPortfolio 100) "AAPL" "MSFT" 1 60 1 60
    (by norm_num [initialPortfolio])

/-- Claim C10: buy, sell and the watchlist mutations normalize the ticker to
upper case before every lookup and write: two requests whose tickers agree up
to letter case are indistinguishable to the ledger, and every holding,
transaction and watchlist row they create stores the upper-cased ticker. -/
theorem ticker_normalization (p : Portfolio) (wl : List WatchlistEntry)
    (t1 t2 : String) (q pr : ℚ) (now : ℕ)
    (h : toUpperCase t1 = toUpperCase t2) :
    buyCore p t1 q pr = buyCore p t2 q pr ∧
    sellCore p t1 q pr = sellCore p t2 q pr ∧
    addToWatchlist wl t1 now = addToWatchlist wl t2 now ∧
    removeFromWatchlist wl t1 = removeFromWatchlist wl t2 ∧
    (∀ p', buyCore p t1 q pr = .ok p' →
      p'.transactions.map Transaction.ticker
        = p.transactions.map Transaction.ticker ++ [toUpperCase t1] ∧
      ∀ h' ∈ p'.holdings, h'.ticker ∈ p.holdings.map Holding.ticker
        ∨ h'.ticker = toUpperCase t1) ∧
    (∀ p', sellCore p t1 q pr = .ok p' →
      p'.transactions.map Transaction.ticker
        = p.transactions.map Transaction.ticker ++ [toUpperCase t1]) ∧
    (∀ e ∈ addToWatchlist wl t1 now,
      e.ticker ∈ wl.map WatchlistEntry.ticker ∨ e.ticker = toUpperCase t1) := by
  refine ⟨?_, ?_, ?_, ?_, ?_, ?_, ?_⟩
  · unfold buyCore; rw [h]
  · unfold sellCore; rw [h]
  · unfold addToWatchlist; rw [h]
  · unfold removeFromWatchlist; rw [h]
  · intro p' hok
    by_cases hc : p.cashBalance < q * pr
    · rw [buyCore_insufficient p t1 q pr hc] at hok
      exact absurd hok (by simp)
    · rw [buyCore_ok p t1 q pr hc] at hok
      simp only [Except.ok.injEq] at hok
      subst hok
      constructor
      · simp
      · intro h' hh'
        simp only at hh'
        unfold buyHoldings at hh'
        rcases hfind : findHolding p.holdings (toUpperCase t1) with _ | existing
        · rw [hfind] at hh'
          rcases List.mem_append.mp hh' with hmem | hmem
          · exact Or.inl (List.mem_map_of_mem _ hmem)
          · simp only [List.mem_singleton] at hmem
            subst hmem
            exact Or.inr rfl
        · rw [hfind] at hh'
          refine updateHolding_forall
            (P := fun y => y.ticker ∈ p.holdings.map Holding.ticker
              ∨ y.ticker = toUpperCase t1) ?_ ?_ h' hh'
          · exact fun y hy => Or.inl (List.mem_map_of_mem _ hy)
          · intro y hy
            exact Or.inl (show y.ticker ∈ p.holdings.map Holding.ticker from
              List.mem_map_of_mem _ hy)
  · intro p' hok
    rcases hfind : findHolding p.holdings (toUpperCase t1) with _ | holding
    · rw [sellCore_noHolding p t1 q pr hfind] at hok
      exact absurd hok (by simp)
    · by_cases hlt : holding.quantity < q
      · rw [sellCore_insufficient p t1 q pr holding hfind hlt] at hok
        exact absurd hok (by simp)
      · rw [sellCore_ok p t1 q pr holding hfind hlt] at hok
        simp only [Except.ok.injEq] at hok
        subst hok
        simp
  · intro e he
    unfold addToWatchlist at he
    by_cases hany : wl.any fun x => x.ticker == toUpperCase t1
    · rw [if_pos hany] at he
      obtain ⟨x, hx, hxe⟩ := List.mem_map.mp he
      by_cases hxc : x.ticker == toUpperCase t1
      · rw [if_pos hxc] at hxe
        subst hxe
        exact Or.inl (show x.ticker ∈ wl.map WatchlistEntry.ticker from
          List.mem_map_of_mem _ hx)
      · rw [if_neg hxc] at hxe
        subst hxe
        exact Or.inl (List.mem_map_of_mem _ hx)
    · rw [if_neg hany] at he
      rcases List.mem_append.mp he with hmem | hmem
      · exact Or.inl (List.mem_map_of_mem _ hmem)
      · simp only [List.mem_singleton] at hmem
        subst hmem
        exact Or.inr rfl

/-- Witness for claim C10 at the case-variant tickers aapl and AaPl. -/
theorem ticker_normalization_witness :
    buyCore (initialPortfolio 100) "aapl" 2 10 = buyCore (initialPortfolio 100) "AaPl" 2 10 ∧
    sellCore (initialPortfolio 100) "aapl" 2 10 = sellCore (initialPortfolio 100) "AaPl" 2 10 ∧
    addToWatchlist [] "aapl" 7 = addToWatchlist [] "AaPl" 7 ∧
    removeFromWatchlist [] "aapl" = removeFromWatchlist [] "AaPl" ∧
    (∀ p', buyCore (initialPortfolio 100) "aapl" 2 10 = .ok p' →
      p'.transactions.map Transaction.ticker
        = (initialPortfolio 100).transactions.map Transaction.ticker
          ++ [toUpperCase "aapl"] ∧
      ∀ h' ∈ p'.holdings, h'.ticker ∈ (initialPortfolio 100).holdings.map Holding.ticker
        ∨ h'.ticker = toUpperCase "aapl") ∧
    (∀ p', sellCore (initialPortfolio 100) "aapl" 2 10 = .ok p' →
      p'.transactions.map Transaction.ticker
        = (initialPortfolio 100).transactions.map Transaction.ticker
          ++ [toUpperCase "aapl"]) ∧
    (∀ e ∈ addToWatchlist [] "aapl" 7,
      e.ticker ∈ ([] : List WatchlistEntry).map WatchlistEntry.ticker
        ∨ e.ticker = toUpperCase "aapl") :=
  ticker_normalization (initialPortfolio 100) [] "aapl" "AaPl" 2 10 7 (by decide)

theorem cachedQuery_mem {stored : List RecRecord} {r : RecRecord}
    (hr : r ∈ cachedQuery stored) :
    r ∈ stored ∧ ∀ r' ∈ stored, r'.ticker = r.ticker → r'.createdAt ≤ r.createdAt := by
  unfold cachedQuery at hr
  have hr' := List.mem_of_mem_take hr
  obtain ⟨t, ht, hpick⟩ := List.mem_filterMap.mp hr'
  have hmf := List.mem_filter.mp (List.argmax_mem hpick)
  have hticker : r.ticker = t := by simpa using hmf.2
  refine ⟨hmf.1, ?_⟩
  intro r' hr'' hks
  have hin : r' ∈ stored.filter fun s => s.ticker == t :=
    List.mem_filter.mpr ⟨hr'', by simp [hks, hticker]⟩
  exact List.le_of_mem_argmax hin hpick

theorem pairwise_ticker_filterMap (stored : List RecRecord) (l : List String)
    (hl : l.Pairwise (· < ·)) :
    ((l.filterMap fun t =>
      (stored.filter fun r => r.ticker == t).argmax RecRecord.createdAt).map
        RecRecord.ticker).Pairwise (· < ·) := by
  induction hl with
  | nil => simp
  | @cons t rest hhead htail ih =>
    rcases hpick : (stored.filter fun r => r.ticker == t).argmax RecRecord.createdAt
      with _ | r
    · rwa [@List.filterMap_cons_none _ _
        (fun t => (stored.filter fun r => r.ticker == t).argmax RecRecord.createdAt)
        t rest hpick]
    · rw [@List.filterMap_cons_some _ _
        (fun t => (stored.filter fun r => r.ticker == t).argmax RecRecord.createdAt)
        t rest r hpick, List.map_cons]
      refine List.pairwise_cons.mpr ⟨?_, ih⟩
      intro x hx
      obtain ⟨r', hr', rfl⟩ := List.mem_map.mp hx
      obtain ⟨t', ht', hpick'⟩ := List.mem_filterMap.mp hr'
      have h1 : r.ticker = t := by
        simpa using (List.mem_filter.mp (List.argmax_mem hpick)).2
      have h2 : r'.ticker = t' := by
        simpa using (List.mem_filter.mp (List.argmax_mem hpick')).2
      rw [h1, h2]
      exact hhead t' ht'

theorem cachedQuery_ticker_sorted (stored : List RecRecord) :
    ((cachedQuery stored).map RecRecord.ticker).Pairwise (· < ·) := by
  have h0 : (((stored.map RecRecord.ticker).dedup).insertionSort (· ≤ ·)).Pairwise
      (· < ·) := by
    have hs : List.Sorted (· ≤ ·)
        (((stored.map RecRecord.ticker).dedup).insertionSort (· ≤ ·)) :=
      List.sorted_insertionSort _ _
    have hn : (((stored.map RecRecord.ticker).dedup).insertionSort (· ≤ ·)).Nodup :=
      (List.perm_insertionSort _ _).nodup_iff.mpr (List.nodup_dedup _)
    exact hs.lt_of_le hn
  have h1 := pairwise_ticker_filterMap stored _ h0
  unfold cachedQuery
  rw [List.map_take]
  exact List.Pairwise.sublist (List.take_sublist _ _) h1

theorem cachedQuery_length (stored : List RecRecord) :
    (cachedQuery stored).length ≤ 10 := by
  unfold cachedQuery
  simp [List.length_take]

/-- Claim C8 fails as stated: a prediction-source failure whose error code is
neither ECONNREFUSED nor ETIMEDOUT (an HTTP-level error, say) is answered
with the hard 503 failure even though a cached record for AAPL exists. -/
theorem recommendations_counterexample :
    getRecommendations .otherError [⟨"AAPL", "buy", 1, 5⟩]
      = .error "AI recommendation service temporarily unavailable." := rfl

/-- Claim C8 amended: when the prediction-source call fails with
ECONNREFUSED or ETIMEDOUT and the user has at least one cached record, the
endpoint answers with the cached rows, the cached flag and the explanatory
message instead of a hard failure; the rows are, for at most ten tickers,
the most recent record per ticker, ordered by ticker; any other failure, or
an empty cache, is the hard 503 error. -/
theorem recommendations_fallback (ml : MlOutcome) (stored : List RecRecord)
    (hml : ml = .connRefused ∨ ml = .timedOut)
    (hne : cachedQuery stored ≠ []) :
    getRecommendations ml stored
      = .ok ⟨cachedQuery stored, true, some fallbackMessage⟩ ∧
    (∀ r ∈ cachedQuery stored, r ∈ stored ∧
      ∀ r' ∈ stored, r'.ticker = r.ticker → r'.createdAt ≤ r.createdAt) ∧
    ((cachedQuery stored).map RecRecord.ticker).Pairwise (· < ·) ∧
    (cachedQuery stored).length ≤ 10 := by
  refine ⟨?_, fun r hr => cachedQuery_mem hr,
    cachedQuery_ticker_sorted stored, cachedQuery_length stored⟩
  rcases hml with rfl | rfl <;>
    simp [getRecommendations, List.isEmpty_iff, hne]

/-- Witness for the amended claim C8: connection refused with one cached
AAPL record. -/
theorem recommendations_fallback_witness :
    getRecommendations .connRefused [⟨"AAPL", "buy", 1, 5⟩]
      = .ok ⟨cachedQuery [⟨"AAPL", "buy", 1, 5⟩], true, some fallbackMessage⟩ ∧
    (∀ r ∈ cachedQuery [⟨"AAPL", "buy", 1, 5⟩], r ∈ [(⟨"AAPL", "buy", 1, 5⟩ : RecRecord)] ∧
      ∀ r' ∈ [(⟨"AAPL", "buy", 1, 5⟩ : RecRecord)], r'.ticker = r.ticker →
        r'.createdAt ≤ r.createdAt) ∧
    ((cachedQuery [⟨"AAPL", "buy", 1, 5⟩]).map RecRecord.ticker).Pairwise (· < ·) ∧
    (cachedQuery [⟨"AAPL", "buy", 1, 5⟩]).length ≤ 10 :=
  recommendations_fallback .connRefused [⟨"AAPL", "buy", 1, 5⟩] (Or.inl rfl) (by decide)

end StockPortfolio
